import Mathlib

/-!
Shallow embedding of the core signal-processing and scanning engine of the
sdu5600 repository, together with proofs settling the specification claims.

Conventions used throughout:
* numpy float arithmetic is modelled exactly over `ℚ` (float rounding is not
  modelled; claims are about the algebraic structure of the computations);
* numpy arrays become `List`s; slice reads become `take`/`drop`, slice
  assignment becomes `setSlice`;
* Python's `%` on integers is `Int.emod` (both yield a result in `[0, m)` for
  a positive modulus `m`);
* Python's `l[-k:]` is `pyTakeLast k l` (including the `k = 0` corner where
  Python returns the whole list);
* complex samples are pairs `ℚ × ℚ` of real and imaginary parts.
-/

namespace SDU5600

/-! ## List helpers mirroring numpy/Python primitives -/

/-- Python / numpy slice `l[-k:]`.  Note `l[-0:]` is the whole list. -/
def pyTakeLast {α : Type} (k : ℕ) (l : List α) : List α :=
  if k = 0 then l else l.drop (l.length - k)

/-- The last `k` elements of `l` (all of `l` when `k ≥ l.length`). -/
def tailN {α : Type} (k : ℕ) (l : List α) : List α :=
  l.drop (l.length - k)

/-- numpy slice assignment `l[s : s + v.length] = v` (meaningful when
`s + v.length ≤ l.length`). -/
def setSlice {α : Type} (l : List α) (s : ℕ) (v : List α) : List α :=
  l.take s ++ v ++ l.drop (s + v.length)

/-! ## IQRingBuffer (src/core/dsp/iq_buffer.py)

`push` and `latest` mirror `IQRingBuffer.push` / `IQRingBuffer.latest`:
numpy slice assignments become `setSlice`, `iq[-capacity:]` becomes
`pyTakeLast`, Python's `%` becomes `Nat.mod` / `Int.emod`.  Sample values are
opaque to the buffer logic; the `complex64` samples are modelled as `ℤ`.
(As in the source, a zero `capacity` is not meaningful: Python would raise
`ZeroDivisionError` at `end % self.capacity`; all theorems assume
`0 < capacity`.) -/

structure IQRingBuffer where
  capacity : ℕ
  buf : List ℤ
  wpos : ℕ

/-- `IQRingBuffer.__init__`: a zero-filled buffer with the write cursor at 0. -/
def IQRingBuffer.init (capacity : ℕ) : IQRingBuffer :=
  { capacity := capacity, buf := List.replicate capacity 0, wpos := 0 }

/-- `IQRingBuffer.push` (iq_buffer.py lines 11-28). -/
def IQRingBuffer.push (s : IQRingBuffer) (iq0 : List ℤ) : IQRingBuffer :=
  if iq0.length = 0 then s
  else
    let iq := if s.capacity ≤ iq0.length then pyTakeLast s.capacity iq0 else iq0
    let n := iq.length
    let e := s.wpos + n
    if e ≤ s.capacity then
      { s with buf := setSlice s.buf s.wpos iq, wpos := e % s.capacity }
    else
      let k := s.capacity - s.wpos
      let b1 := setSlice s.buf s.wpos (iq.take k)
      { s with buf := setSlice b1 0 (iq.drop k), wpos := e % s.capacity }

/-- `IQRingBuffer.latest` (iq_buffer.py lines 30-39). -/
def IQRingBuffer.latest (s : IQRingBuffer) (n0 : ℤ) : List ℤ :=
  let n : ℤ := min n0 (s.capacity : ℤ)
  let start : ℤ := ((s.wpos : ℤ) - n) % (s.capacity : ℤ)
  if start < (s.wpos : ℤ) then
    (s.buf.take s.wpos).drop start.toNat
  else
    s.buf.drop start.toNat ++ s.buf.take s.wpos

/-- Well-formedness maintained by the class: the backing array has exactly
`capacity` cells and the write cursor stays inside it. -/
def IQRingBuffer.WF (s : IQRingBuffer) : Prop :=
  s.buf.length = s.capacity ∧ s.wpos < s.capacity

/-- The buffer contents in chronological order, ending at the write cursor. -/
def IQRingBuffer.chron (s : IQRingBuffer) : List ℤ :=
  s.buf.drop s.wpos ++ s.buf.take s.wpos

/-- The chunk actually written by `push`: the input, truncated to its trailing
`capacity` samples when it is at least `capacity` long. -/
def pushKept (cap : ℕ) (iq0 : List ℤ) : List ℤ :=
  if cap ≤ iq0.length then pyTakeLast cap iq0 else iq0

/-! ## FIR design and streaming convolution (src/core/dsp/wbfm.py)

`fir_stream` mirrors wbfm.py lines 92-97.  `np.convolve(a, v, mode="valid")`
convolves the longer input with the shorter (the output has
`max - min + 1` entries); `convValid` models that, including the swap.
(numpy raises on an empty input; the callers never pass one and the theorems
assume nonempty arguments.)  `fir_lowpass` mirrors wbfm.py lines 83-89: the
transcendental library calls `np.sinc` and `np.hamming` enter as function
parameters, so everything proved holds for the true window/sinc functions in
particular; all other arithmetic is exact over `ℚ`. -/

/-- One-sided valid-mode convolution, assuming `v` is the shorter input:
`y[j] = ∑ k, v[k] * a[j + len v - 1 - k]` for `j < len a - len v + 1`. -/
def convValidCore (a v : List ℚ) : List ℚ :=
  (List.range (a.length + 1 - v.length)).map (fun j =>
    ∑ k ∈ Finset.range v.length, v.getD k 0 * a.getD (j + v.length - 1 - k) 0)

/-- `np.convolve(a, v, mode="valid")` (numpy swaps so that the longer input
is convolved with the shorter). -/
def convValid (a v : List ℚ) : List ℚ :=
  if v.length ≤ a.length then convValidCore a v else convValidCore v a

/-- `fir_stream` (wbfm.py lines 92-97): prepend the carried state, convolve in
valid mode, and keep `x2[-(len(h)-1):]` as the new state. -/
def fir_stream (x h zi : List ℚ) : List ℚ × List ℚ :=
  let x2 := zi ++ x
  (convValid x2 h, pyTakeLast (h.length - 1) x2)

/-- `fir_lowpass` (wbfm.py lines 83-89): windowed sinc, normalized by the sum
of the windowed coefficients.  The normalized frequency is
`fc = cutoff_hz / fs`, used as requested — there is no clamping step. -/
def fir_lowpass (sinc hamming : ℚ → ℚ) (num_taps : ℕ) (cutoff_hz fs : ℚ) :
    List ℚ :=
  let fc := cutoff_hz / fs
  let h := (List.range num_taps).map (fun i =>
    2 * fc * sinc (2 * fc * ((i : ℚ) - ((num_taps : ℚ) - 1) / 2))
      * hamming (i : ℚ))
  h.map (fun c => c / h.sum)

/-! ## Byte→IQ interpretation (wbfm.py `_rx_cb` lines 204-234, am.py
`AMStream._bytes_to_iq` lines 96-128, and the size gate in
`AMStream._loop` lines 123-124)

Raw chunks are byte lists (`List ℕ`, each entry one byte).
`np.frombuffer(raw, dtype=np.int8)` reinterprets each byte as a signed 8-bit
value (`int8OfByte`); `data[0::2]` / `data[1::2]` are the even/odd stride
slices (`evens` / `odds`); `data[:-1]` is `dropLast`.  A complex sample is a
pair `ℚ × ℚ`; `np.mean` of a complex vector is the pair of componentwise
means. -/

/-- Reinterpret one byte (0..255) as a signed 8-bit integer. -/
def int8OfByte (b : ℕ) : ℤ :=
  if b < 128 then (b : ℤ) else (b : ℤ) - 256

/-- `l[0::2]`: every second element, starting at index 0. -/
def evens {α : Type} : List α → List α
  | [] => []
  | [a] => [a]
  | a :: _ :: rest => a :: evens rest

/-- `l[1::2]`: every second element, starting at index 1. -/
def odds {α : Type} (l : List α) : List α :=
  evens l.tail

/-- `data[:-1] if data.size % 2 else data`: drop an odd trailing element. -/
def truncEven (l : List ℤ) : List ℤ :=
  if l.length % 2 = 1 then l.dropLast else l

/-- The shared byte→IQ arithmetic of `_rx_cb` and `_bytes_to_iq` (after each
function's own minimum-size gate): deinterleave, scale by 1/128, subtract the
block mean componentwise. -/
def bytes_to_iq_core (raw : List ℕ) : List (ℚ × ℚ) :=
  let data := truncEven (raw.map int8OfByte)
  let iq := ((evens data).zip (odds data)).map
    (fun p => ((p.1 : ℚ) / 128, (p.2 : ℚ) / 128))
  iq.map (fun z =>
    (z.1 - (iq.map Prod.fst).sum / (iq.length : ℚ),
     z.2 - (iq.map Prod.snd).sum / (iq.length : ℚ)))

/-- The byte→IQ stage of `WBFMStream._rx_cb`: blocks of fewer than 4 bytes
(2 complex samples) produce nothing. -/
def rx_bytes_to_iq (raw : List ℕ) : List (ℚ × ℚ) :=
  if raw.length < 4 then [] else bytes_to_iq_core raw

/-- `AMStream._bytes_to_iq` (identical in ssb.py): blocks of fewer than
2 bytes (1 complex sample) produce nothing. -/
def am_bytes_to_iq (raw : List ℕ) : List (ℚ × ℚ) :=
  if raw.length < 2 then [] else bytes_to_iq_core raw

/-- The block-size gate of `AMStream._loop`: demodulation skips blocks of
fewer than 256 complex samples. -/
def am_loop_iq (raw : List ℕ) : List (ℚ × ℚ) :=
  if (am_bytes_to_iq raw).length < 256 then [] else am_bytes_to_iq raw

/-- Reference interpretation following the spec's wording, for comparison
with the code: interleaved signed 8-bit pairs `raw[2j], raw[2j+1]`, scaled by
1/128, block mean subtracted, an odd trailing byte dropped, and blocks of
fewer than `minPairs` complex samples discarded. -/
def spec_iq (raw : List ℕ) : List (ℚ × ℚ) :=
  let m := raw.length / 2
  let I := (List.range m).map (fun j => ((int8OfByte (raw.getD (2 * j) 0) : ℚ) / 128))
  let Q := (List.range m).map (fun j => ((int8OfByte (raw.getD (2 * j + 1) 0) : ℚ) / 128))
  (List.range m).map (fun j =>
    (I.getD j 0 - I.sum / (m : ℚ), Q.getD j 0 - Q.sum / (m : ℚ)))

/-- Reference byte→IQ with a minimum block size in complex samples. -/
def spec_bytes_to_iq (minPairs : ℕ) (raw : List ℕ) : List (ℚ × ℚ) :=
  if raw.length / 2 < minPairs then [] else spec_iq raw

/-! ## NBFM live parameter updates (src/core/dsp/nbfm.py lines 45-61)

`NBFMStream.update_params(**params)` walks the keyword arguments, skips
unknown attribute names, assigns every value that differs from the current
attribute and sets `rebuild = True` whenever ANY such assignment happened,
then calls `self._rebuild_filters()`.  The recognized DSP parameters are
modelled as a record of optional new values (an absent keyword = `none`;
unknown keywords are skipped by `hasattr` and have no effect, so they are
not modelled).  Python compares the old and new values with `!=`. -/

structure NBFMParams where
  chan_taps : ℕ
  chan_cutoff_hz : ℚ
  aud_taps : ℕ
  aud_cutoff_hz : ℚ
  tau : ℚ
  drive : ℚ
  volume : ℚ

structure NBFMUpdate where
  chan_taps : Option ℕ := none
  chan_cutoff_hz : Option ℚ := none
  aud_taps : Option ℕ := none
  aud_cutoff_hz : Option ℚ := none
  tau : Option ℚ := none
  drive : Option ℚ := none
  volume : Option ℚ := none

structure NBFMState where
  params : NBFMParams
  chanTail : List ℚ
  audTail : List ℚ

/-- Modelled from the spec: `WBFMStream._rebuild_filters` is called by
`NBFMStream.update_params` but its body is not among the staged sources (the
queue-based `WBFMStream` revision that defines it — together with
`hpf_1pole` — is missing from src/; only its callers are present).  Per the
spec's rebuild policy it recomputes the FIR coefficients from the current
tap/cutoff parameters and resets the carried filter tails to zeros of length
`taps - 1`. -/
def rebuild_filters (s : NBFMState) : NBFMState :=
  { s with chanTail := List.replicate (s.params.chan_taps - 1) 0,
           audTail := List.replicate (s.params.aud_taps - 1) 0 }

/-- One step of the `for k, v in params.items()` loop: assign when the value
differs, accumulating the `rebuild` flag. -/
def applyParam {α : Type} [DecidableEq α] (cur : α) (v : Option α)
    (rb : Bool) : α × Bool :=
  match v with
  | none => (cur, rb)
  | some x => if cur ≠ x then (x, true) else (cur, rb)

/-- Whether one supplied value differs from the current one. -/
def paramChanged {α : Type} [DecidableEq α] (cur : α) (v : Option α) : Bool :=
  match v with
  | none => false
  | some x => decide (cur ≠ x)

/-- Whether any supplied parameter value differs from the current one. -/
def anyChanged (s : NBFMState) (u : NBFMUpdate) : Bool :=
  paramChanged s.params.chan_taps u.chan_taps
    || paramChanged s.params.chan_cutoff_hz u.chan_cutoff_hz
    || paramChanged s.params.aud_taps u.aud_taps
    || paramChanged s.params.aud_cutoff_hz u.aud_cutoff_hz
    || paramChanged s.params.tau u.tau
    || paramChanged s.params.drive u.drive
    || paramChanged s.params.volume u.volume

/-- `NBFMStream.update_params` (nbfm.py lines 45-61). -/
def update_params (s : NBFMState) (u : NBFMUpdate) : NBFMState :=
  let p1 := applyParam s.params.chan_taps u.chan_taps false
  let p2 := applyParam s.params.chan_cutoff_hz u.chan_cutoff_hz p1.2
  let p3 := applyParam s.params.aud_taps u.aud_taps p2.2
  let p4 := applyParam s.params.aud_cutoff_hz u.aud_cutoff_hz p3.2
  let p5 := applyParam s.params.tau u.tau p4.2
  let p6 := applyParam s.params.drive u.drive p5.2
  let p7 := applyParam s.params.volume u.volume p6.2
  let s' : NBFMState :=
    { s with params :=
      { chan_taps := p1.1, chan_cutoff_hz := p2.1, aud_taps := p3.1,
        aud_cutoff_hz := p4.1, tau := p5.1, drive := p6.1, volume := p7.1 } }
  if p7.2 then rebuild_filters s' else s'

/-- Concrete NFM demodulator state for the C2 counterexample: 2-tap filters
with nonzero carried tails. -/
def nbfmExampleState : NBFMState :=
  { params :=
    { chan_taps := 2, chan_cutoff_hz := 16000, aud_taps := 2,
      aud_cutoff_hz := 3000, tau := 53 / 100000, drive := 1, volume := 1 },
    chanTail := [5], audTail := [7] }

/-- An update that changes only the drive (gain) parameter. -/
def nbfmDriveOnlyUpdate : NBFMUpdate :=
  { drive := some 2 }

/-! ## AudioEngine (src/core/audio_engine.py)

`start` (lines 86-166) and `set_mode` (lines 188-233) are modelled as pure
state transitions.  Python's `mode.upper().strip()` is modelled by
`pyStrip (pyUpper mode)` (Lean's own `String.toUpper` does not reduce in the
kernel; `pyUpper`/`pyStrip` are the same character-level operations).
External collaborator calls (`driver.connect`, `driver.set_center_freq`,
`driver.get_audio_queue`) are modelled as successful — their failures are the
collaborator's, not the engine's.  The queue-based pipeline constructors
invoked by `_create_stream` are modelled as always succeeding (am.py and
ssb.py constructors cannot fail; the queue-based WBFM/NBFM constructors are
not among the staged sources — spec-modelled as non-failing construction).
The preset/pending-parameter application is wrapped in `try/except` in the
source and cannot abort `start`; it is elided.  A started pipeline is
modelled by `running := true`.  On an error path the source has already
mutated `iq_queue`/`current_mode` before raising; the model returns only the
error (no claim concerns the engine's fields after a failed `start`). -/

/-- Python `str.upper()` at the character level. -/
def pyUpper (s : String) : String := ⟨s.data.map Char.toUpper⟩

/-- Python `str.strip()`: remove leading and trailing whitespace. -/
def pyStrip (s : String) : String :=
  ⟨((s.data.dropWhile Char.isWhitespace).reverse.dropWhile
      Char.isWhitespace).reverse⟩

inductive StreamKind where
  | wbfm
  | nbfm
  | am
  | ssb (sideband : String)
deriving DecidableEq

/-- A constructed demodulator pipeline (the state AudioEngine tracks of it). -/
structure StreamS where
  kind : StreamKind
  freq_mhz : ℚ
  input_fs : ℕ
  running : Bool
deriving DecidableEq

/-- The radio driver collaborator, as AudioEngine probes it: whether it
exposes `get_audio_queue`, and its advertised `sample_rate` if any. -/
structure Driver where
  hasGetAudioQueue : Bool
  sampleRate : Option ℕ := none
deriving DecidableEq

inductive StartErr where
  | noActiveRadio
  | driverCapabilityMissing
  | unsupportedMode
deriving DecidableEq

structure AudioEngine where
  stream : Option StreamS := none
  current_mode : Option String := none
  iq_queue : Option Unit := none
  volume : ℚ := 8 / 10
deriving DecidableEq

/-- The mode strings `_create_stream` accepts (audio_engine.py lines 47-81). -/
def supportedModes : List String := ["FM", "WFM", "NFM", "FMN", "AM", "USB", "LSB"]

/-- `AudioEngine._create_stream` (lines 47-81): dispatch on the re-uppercased
mode, `ValueError` (here `none`) for anything else. -/
def createStream (mode : String) (freq_mhz : ℚ) (input_fs : ℕ) :
    Option StreamS :=
  let m := pyUpper mode
  if m = "FM" ∨ m = "WFM" then
    some { kind := .wbfm, freq_mhz := freq_mhz, input_fs := input_fs, running := false }
  else if m = "NFM" ∨ m = "FMN" then
    some { kind := .nbfm, freq_mhz := freq_mhz, input_fs := input_fs, running := false }
  else if m = "AM" then
    some { kind := .am, freq_mhz := freq_mhz, input_fs := input_fs, running := false }
  else if m = "USB" ∨ m = "LSB" then
    some { kind := .ssb m, freq_mhz := freq_mhz, input_fs := input_fs, running := false }
  else
    none

/-- `AudioEngine.start` (lines 86-166). -/
def AudioEngine.start (e : AudioEngine) (driver : Option Driver)
    (freq_mhz : ℚ) (mode : String) : Except StartErr AudioEngine :=
  let e := { e with stream := none }          -- self.stop()
  match driver with
  | none => .error .noActiveRadio             -- ValueError: no hay driver activo
  | some d =>
    -- driver.connect() / driver.set_center_freq(freq * 1e6): collaborator calls
    if d.hasGetAudioQueue = false then
      .error .driverCapabilityMissing         -- RuntimeError: no get_audio_queue()
    else
      let m := pyStrip (pyUpper mode)
      let input_fs := d.sampleRate.getD 2400000
      match createStream m freq_mhz input_fs with
      | none => .error .unsupportedMode       -- ValueError from _create_stream
      | some st =>
        .ok { e with stream := some { st with running := true },
                     current_mode := some m, iq_queue := some () }

/-- `AudioEngine.set_mode` (lines 188-233): hot-swap; on construction failure
the stopped old pipeline is restored as the current one. -/
def AudioEngine.set_mode (e : AudioEngine) (mode : String) : AudioEngine :=
  let m := pyStrip (pyUpper mode)
  if m = "" ∨ some m = e.current_mode then e
  else
    match e.stream, e.iq_queue with
    | none, _ => { e with current_mode := some m }
    | some _, none => { e with current_mode := some m }
    | some old, some _ =>
      let oldStopped := { old with running := false }   -- old.stop()
      match createStream m old.freq_mhz old.input_fs with
      | none => { e with stream := some oldStopped }    -- fallback, mode unchanged
      | some ns =>
        { e with stream := some { ns with running := true },
                 current_mode := some m }

/-- Engine state with a running NFM pipeline, for the C5 theorems. -/
def engineRunningExample : AudioEngine :=
  { stream := some { kind := .nbfm, freq_mhz := 145, input_fs := 2400000,
                     running := true },
    current_mode := some "NFM", iq_queue := some () }

/-! ## ScannerEngine (src/core/scanner_engine.py)

`_level_db` (lines 158-194) is modelled over `ℚ`; the driver collaborator
exposes an optional S-meter reading and an optional spectrum snapshot (an
accessor that raises is indistinguishable from an absent one — both fall
through).  The per-frequency episode `_scan_single_freq` (lines 293-356)
together with the tap callback `_on_audio` (lines 95-126) is modelled as a
state machine driven by an explicit schedule of interleaved events: `audio t`
(the tap delivers a block at time `t`) and `poll t` (one iteration of the
wait loop at time `t`); the GIL serializes the two in the source.  Tuning,
settling sleeps and `manager.start_audio` are collaborator calls modelled as
succeeding; `WavRecorder` creation (which creates the output file) is
modelled as succeeding, and `filesCreated` counts those creations.  After the
wait loop breaks the engine stops the audio pipeline, so no further events
are processed. -/

structure ScanDriver where
  smeter : Option ℚ := none
  spectrum : Option (List ℚ × List ℚ) := none

/-- First index of the minimal `|x - f0|` (`np.argmin(np.abs(freqs - f0))`),
accumulator form. -/
def argminAbsGo (f0 : ℚ) : List ℚ → ℚ → ℕ → ℕ → ℕ
  | [], _, bi, _ => bi
  | x :: rest, bv, bi, i =>
    if |x - f0| < bv then argminAbsGo f0 rest |x - f0| i (i + 1)
    else argminAbsGo f0 rest bv bi (i + 1)

def argminAbs (l : List ℚ) (f0 : ℚ) : ℕ :=
  match l with
  | [] => 0
  | x :: rest => argminAbsGo f0 rest |x - f0| 0 1

/-- `np.max` over a nonempty list (default for the empty case). -/
def listMax (l : List ℚ) (dflt : ℚ) : ℚ :=
  match l with
  | [] => dflt
  | x :: rest => rest.foldl max x

/-- `⌊q⌋` for the nonnegative `int(bw / df)` truncation. -/
def ratFloorNat (q : ℚ) : ℕ := q.floor.toNat

/-- `ScannerEngine._level_db` (lines 158-194): prefer the S-meter; otherwise
the spectrum peak within ±12.5 kHz of the tuned frequency; otherwise the
sentinel `-999.0`.  (An empty slice falls back to `max(levels)`, and a fully
empty snapshot to `-999.0`, mirroring the nested `except` blocks.) -/
def level_db (d : ScanDriver) (tuned_hz : ℚ) : ℚ :=
  match d.smeter with
  | some v => v
  | none =>
    match d.spectrum with
    | none => -999
    | some (freqs, levels) =>
      if freqs.length = 0 then -999
      else
        let idx := argminAbs freqs tuned_hz
        let n :=
          if 2 ≤ freqs.length then
            max 2 (ratFloorNat (12500 / |freqs.getD 1 0 - freqs.getD 0 0|))
          else 8
        let lo := idx - n
        let hi := min levels.length (idx + n + 1)
        let window := (levels.take hi).drop lo
        if window.length ≠ 0 then listMax window (-999)
        else if levels.length ≠ 0 then listMax levels (-999)
        else -999

/-- The per-episode scanner state (`_armed`, `_armed_until`, `_rec`,
`_rec_done`), plus the count of output files created and the emitted status
states. -/
structure ScanState where
  armed : Bool := false
  armedUntil : ℚ := 0
  recOpen : Bool := false
  recDone : Bool := false
  filesCreated : ℕ := 0
  statuses : List String := []

/-- `ScannerEngine._stop_recording` (lines 139-150). -/
def stopRecording (s : ScanState) : ScanState :=
  { s with armed := false, armedUntil := 0, recOpen := false }

/-- `ScannerEngine._on_audio` (lines 95-126) at time `t`: open the output
file lazily on the first block while armed, write, and close once the fixed
clip deadline has passed. -/
def onAudio (t : ℚ) (s : ScanState) : ScanState :=
  if s.recOpen = false ∧ s.armed = false then s
  else
    let s :=
      if s.recOpen = false ∧ s.armed = true then
        { s with recOpen := true, filesCreated := s.filesCreated + 1 }
      else s
    if s.armedUntil ≤ t then { stopRecording s with recDone := true } else s

/-- One iteration of the wait loop in `_scan_single_freq` (lines 341-350) at
time `t`: `false` means the loop breaks. -/
def pollStep (t0 t : ℚ) (s : ScanState) : ScanState × Bool :=
  if s.recDone = true then (s, false)
  else if s.recOpen = false ∧ s.armed = true ∧ t - t0 > 4 / 5 then
    (stopRecording s, false)
  else (s, true)

inductive ScanEv where
  | audio (t : ℚ)
  | poll (t : ℚ)

/-- Run the interleaved tap/wait-loop events until the wait loop breaks or
the schedule ends. -/
def runEvents (t0 : ℚ) : List ScanEv → ScanState → ScanState
  | [], s => s
  | ScanEv.audio t :: rest, s => runEvents t0 rest (onAudio t s)
  | ScanEv.poll t :: rest, s =>
    let p := pollStep t0 t s
    if p.2 then runEvents t0 rest p.1 else p.1

/-- `ScannerEngine._scan_single_freq` (lines 293-356): tune and settle
(collaborator calls), measure the level, emit SCAN; below squelch, return;
otherwise arm (timestamped filename, deadline `t0 + hold`, NO file yet),
start the audio engine, emit HOLD and run the wait loop. -/
def scanSingleFreq (d : ScanDriver) (squelch hold freq_mhz t0 : ℚ)
    (evs : List ScanEv) : ScanState :=
  let level := level_db d (freq_mhz * 1000000)
  let s0 : ScanState := { statuses := ["SCAN"] }
  if level < squelch then s0
  else
    let s1 := { s0 with armed := true, armedUntil := t0 + hold,
                        statuses := s0.statuses ++ ["HOLD"] }
    runEvents t0 evs s1

/-! ## Theorems -/

theorem tailN_eq_reverse_take {α : Type} (k : ℕ) (l : List α) :
    tailN k l = (l.reverse.take k).reverse :=
  List.rtake_eq_reverse_take_reverse l k

theorem tailN_length {α : Type} (k : ℕ) (l : List α) :
    (tailN k l).length = min k l.length := by
  rw [tailN_eq_reverse_take]
  simp [Nat.min_comm]

theorem tailN_all {α : Type} (k : ℕ) (l : List α) (h : l.length ≤ k) :
    tailN k l = l := by
  unfold tailN
  rw [Nat.sub_eq_zero_of_le h, List.drop_zero]

theorem tailN_append {α : Type} (k : ℕ) (a b : List α) (h : k ≤ b.length) :
    tailN k (a ++ b) = tailN k b := by
  rw [tailN_eq_reverse_take, tailN_eq_reverse_take, List.reverse_append,
    List.take_append_of_le_length (by simpa using h)]

theorem tailN_tailN {α : Type} (j k : ℕ) (l : List α) :
    tailN j (tailN k l) = tailN (min j k) l := by
  rw [tailN_eq_reverse_take, tailN_eq_reverse_take, tailN_eq_reverse_take,
    List.reverse_reverse, List.take_take]

theorem tailN_tailN_append {α : Type} (k : ℕ) (x y : List α) :
    tailN k (tailN k x ++ y) = tailN k (x ++ y) := by
  rw [tailN_eq_reverse_take k x, tailN_eq_reverse_take, tailN_eq_reverse_take,
    List.reverse_append, List.reverse_append, List.reverse_reverse,
    List.take_append_eq_append_take, List.take_append_eq_append_take,
    List.take_take, Nat.min_eq_left (Nat.sub_le _ _)]

theorem IQRingBuffer.chron_length (s : IQRingBuffer) (h : s.WF) :
    s.chron.length = s.capacity := by
  rcases h with ⟨h1, h2⟩
  simp [IQRingBuffer.chron]
  omega

theorem setSlice_length {α : Type} (l v : List α) (s : ℕ)
    (h : s + v.length ≤ l.length) :
    (setSlice l s v).length = l.length := by
  simp [setSlice]
  omega

theorem pushKept_length (cap : ℕ) (hc : 0 < cap) (iq0 : List ℤ) :
    (pushKept cap iq0).length = min cap iq0.length := by
  unfold pushKept pyTakeLast
  rcases le_or_lt cap iq0.length with h | h
  · rw [if_pos h, if_neg (by omega)]
    simp
    omega
  · rw [if_neg (by omega)]
    omega

theorem push_eq_of_ne_nil (s : IQRingBuffer) (iq0 : List ℤ) (h : iq0.length ≠ 0) :
    s.push iq0 =
      (let iq := pushKept s.capacity iq0
       if s.wpos + iq.length ≤ s.capacity then
         { s with buf := setSlice s.buf s.wpos iq,
                  wpos := (s.wpos + iq.length) % s.capacity }
       else
         { s with buf := setSlice (setSlice s.buf s.wpos (iq.take (s.capacity - s.wpos)))
                    0 (iq.drop (s.capacity - s.wpos)),
                  wpos := (s.wpos + iq.length) % s.capacity }) := by
  simp only [IQRingBuffer.push, pushKept, if_neg h]

theorem push_capacity (s : IQRingBuffer) (iq0 : List ℤ) :
    (s.push iq0).capacity = s.capacity := by
  unfold IQRingBuffer.push
  split
  · rfl
  · dsimp only
    split <;> split <;> rfl

theorem push_WF (s : IQRingBuffer) (iq0 : List ℤ) (h : s.WF) (hc : 0 < s.capacity) :
    (s.push iq0).WF := by
  rcases h with ⟨hb, hw⟩
  by_cases h0 : iq0.length = 0
  · unfold IQRingBuffer.push
    rw [if_pos h0]
    exact ⟨hb, hw⟩
  · rw [push_eq_of_ne_nil s iq0 h0]
    have hn : (pushKept s.capacity iq0).length ≤ s.capacity := by
      rw [pushKept_length s.capacity hc iq0]
      omega
    dsimp only
    split
    · refine ⟨?_, ?_⟩
      · simp only [IQRingBuffer.WF]
        rw [setSlice_length s.buf _ s.wpos (by omega)]
        exact hb
      · exact Nat.mod_lt _ hc
    · refine ⟨?_, ?_⟩
      · have h1 : (setSlice s.buf s.wpos ((pushKept s.capacity iq0).take
            (s.capacity - s.wpos))).length = s.buf.length := by
          apply setSlice_length
          simp
          omega
        rw [setSlice_length _ _ 0 (by simp [h1]; omega), h1]
        exact hb
      · exact Nat.mod_lt _ hc

theorem pyTakeLast_eq_tailN {α : Type} (k : ℕ) (l : List α) (h : k ≠ 0) :
    pyTakeLast k l = tailN k l := by
  simp [pyTakeLast, tailN, h]

theorem chron_push (s : IQRingBuffer) (iq0 : List ℤ) (h : s.WF)
    (hc : 0 < s.capacity) :
    (s.push iq0).chron = tailN s.capacity (s.chron ++ iq0) := by
  obtain ⟨hb, hw⟩ := h
  by_cases h0 : iq0.length = 0
  · unfold IQRingBuffer.push
    rw [if_pos h0, List.length_eq_zero.mp h0, List.append_nil,
      tailN_all _ _ (le_of_eq (s.chron_length ⟨hb, hw⟩))]
  · have hrhs : tailN s.capacity (s.chron ++ iq0)
        = tailN s.capacity (s.chron ++ pushKept s.capacity iq0) := by
      unfold pushKept
      rcases le_or_lt s.capacity iq0.length with hle | hlt
      · rw [if_pos hle, pyTakeLast_eq_tailN _ _ (by omega),
          tailN_append _ _ _ hle,
          tailN_append _ _ _ (by rw [tailN_length]; omega),
          tailN_tailN, Nat.min_self]
      · rw [if_neg (by omega)]
    rw [hrhs, push_eq_of_ne_nil s iq0 h0]
    set iq := pushKept s.capacity iq0 with hiq
    set n := iq.length with hn
    set w := s.wpos with hwdef
    set cap := s.capacity with hcapdef
    set B := s.buf with hBdef
    have hn1 : 1 ≤ n := by
      rw [hn, hiq, pushKept_length cap hc iq0]; omega
    have hncap : n ≤ cap := by
      rw [hn, hiq, pushKept_length cap hc iq0]; omega
    have hDw : (B.drop w).length = cap - w := by simp; omega
    have hRHS : tailN cap (s.chron ++ iq)
        = (B.drop w ++ (B.take w ++ iq)).drop n := by
      unfold tailN IQRingBuffer.chron
      rw [← hwdef, ← hBdef, List.append_assoc]
      congr 1
      simp
      omega
    rw [hRHS]
    dsimp only
    rcases lt_trichotomy (w + n) cap with hlt | heq | hgt
    · -- no wraparound and the cursor stays strictly inside the array
      rw [if_pos (show w + iq.length ≤ cap by omega)]
      unfold IQRingBuffer.chron
      dsimp only
      rw [← hn, Nat.mod_eq_of_lt hlt]
      simp only [setSlice]
      rw [← hn]
      rw [List.drop_left' (by simp; omega), List.take_left' (by simp; omega)]
      rw [List.drop_append_of_le_length (by simp; omega), List.drop_drop]
    · -- the write exactly fills the array; the cursor wraps to 0
      rw [if_pos (show w + iq.length ≤ cap by omega)]
      unfold IQRingBuffer.chron
      dsimp only
      rw [← hn, heq, Nat.mod_self]
      simp only [setSlice]
      rw [← hn, heq]
      rw [List.drop_zero, List.take_zero, List.append_nil,
        List.drop_eq_nil_of_le (by omega), List.append_nil,
        List.drop_left' (by simp; omega)]
    · -- wraparound: the chunk is split at the end of the array
      rw [if_neg (by omega)]
      unfold IQRingBuffer.chron
      dsimp only
      have hmod : (w + n) % cap = n - (cap - w) := by
        rw [Nat.mod_eq_sub_mod (by omega), Nat.mod_eq_of_lt (by omega)]
        omega
      rw [← hn, hmod]
      have hk : (iq.take (cap - w)).length = cap - w := by simp; omega
      have hdk : (iq.drop (cap - w)).length = n - (cap - w) := by simp [← hn]
      have hb1 : setSlice B w (iq.take (cap - w)) = B.take w ++ iq.take (cap - w) := by
        simp only [setSlice]
        rw [hk, show w + (cap - w) = cap by omega,
          @List.drop_eq_nil_of_le ℤ B cap (by omega), List.append_nil]
      have hnewbuf : setSlice (B.take w ++ iq.take (cap - w)) 0 (iq.drop (cap - w))
          = iq.drop (cap - w) ++ ((B.take w).drop (n - (cap - w)) ++ iq.take (cap - w)) := by
        simp only [setSlice]
        rw [hdk, List.take_zero, List.nil_append, Nat.zero_add,
          List.drop_append_of_le_length (by simp; omega)]
      rw [hb1, hnewbuf]
      rw [List.drop_left' hdk, List.take_left' hdk]
      rw [List.append_assoc, List.take_append_drop]
      rw [List.drop_append_eq_append_drop, List.drop_drop,
        @List.drop_eq_nil_of_le ℤ B (w + n) (by omega), List.nil_append, hDw,
        List.drop_append_of_le_length (by simp; omega)]

/-- Reading back: for a positive request `n`, `latest` returns the last
`min n capacity` samples of the chronologically ordered contents. -/
theorem latest_eq_tailN_chron (s : IQRingBuffer) (h : s.WF) (n : ℕ)
    (hn : 1 ≤ n) :
    s.latest (n : ℤ) = tailN (min n s.capacity) s.chron := by
  obtain ⟨hb, hw⟩ := h
  have hc : 0 < s.capacity := by omega
  unfold IQRingBuffer.latest IQRingBuffer.chron
  dsimp only
  have hmin : min (n : ℤ) (s.capacity : ℤ) = ((min n s.capacity : ℕ) : ℤ) := by
    push_cast
    rfl
  rw [hmin]
  set m := min n s.capacity with hm
  have hm1 : 1 ≤ m := by omega
  have hmcap : m ≤ s.capacity := by omega
  have hTw : (s.buf.take s.wpos).length = s.wpos := by simp; omega
  rcases le_or_lt m s.wpos with hcase | hcase
  · -- the read does not wrap
    have hstart : ((s.wpos : ℤ) - (m : ℤ)) % (s.capacity : ℤ)
        = ((s.wpos - m : ℕ) : ℤ) := by
      rw [Int.emod_eq_of_lt (by omega) (by omega)]
      omega
    rw [hstart, if_pos (by omega)]
    rw [tailN_append _ _ _ (by omega)]
    unfold tailN
    rw [hTw, Int.toNat_natCast]
  · -- the read wraps across the end of the array
    have hstart : ((s.wpos : ℤ) - (m : ℤ)) % (s.capacity : ℤ)
        = ((s.wpos + s.capacity - m : ℕ) : ℤ) := by
      have h1 : ((s.wpos : ℤ) - (m : ℤ)) % (s.capacity : ℤ)
          = ((s.wpos : ℤ) - (m : ℤ) + (s.capacity : ℤ) * 1) % (s.capacity : ℤ) :=
        (Int.add_mul_emod_self_left _ _ _).symm
      rw [h1, Int.emod_eq_of_lt (by omega) (by omega)]
      omega
    rw [hstart, if_neg (by omega)]
    unfold tailN
    rw [List.length_append, hTw]
    have hDlen : (s.buf.drop s.wpos).length = s.capacity - s.wpos := by simp; omega
    rw [List.drop_append_of_le_length (by omega), List.drop_drop]
    congr 2
    omega

theorem foldl_push_capacity (cap : ℕ) (pushes : List (List ℤ)) (s : IQRingBuffer)
    (hs : s.capacity = cap) :
    (pushes.foldl IQRingBuffer.push s).capacity = cap := by
  induction pushes generalizing s with
  | nil => exact hs
  | cons x L ih =>
    rw [List.foldl_cons]
    exact ih _ (by rw [push_capacity, hs])

theorem foldl_push_WF (pushes : List (List ℤ)) (s : IQRingBuffer)
    (h : s.WF) (hc : 0 < s.capacity) :
    (pushes.foldl IQRingBuffer.push s).WF := by
  induction pushes generalizing s with
  | nil => exact h
  | cons x L ih =>
    rw [List.foldl_cons]
    exact ih _ (push_WF s x h hc) (by rw [push_capacity]; exact hc)

theorem chron_foldl_push (pushes : List (List ℤ)) (s : IQRingBuffer)
    (h : s.WF) (hc : 0 < s.capacity) :
    (pushes.foldl IQRingBuffer.push s).chron
      = tailN s.capacity (s.chron ++ pushes.flatten) := by
  induction pushes generalizing s with
  | nil =>
    rw [List.foldl_nil, List.flatten_nil, List.append_nil,
      tailN_all _ _ (le_of_eq (s.chron_length h))]
  | cons x L ih =>
    rw [List.foldl_cons, List.flatten_cons]
    rw [ih (s.push x) (push_WF s x h hc) (by rw [push_capacity]; exact hc)]
    rw [push_capacity, chron_push s x h hc]
    rw [tailN_tailN_append, List.append_assoc]

/-- C1 counterexample: the claim fails as stated when fewer than
`min n capacity` samples have ever been pushed — after pushing the single
sample `7` into a fresh buffer of capacity 3, `latest 2` returns an initial
zero cell followed by the pushed sample, which is not the list of the last
`min 2 3` pushed samples. -/
theorem iq_ringbuffer_latest_zero_prefix_counterexample :
    ((IQRingBuffer.init 3).push [7]).latest (2 : ℤ) = [0, 7] ∧
      ((IQRingBuffer.init 3).push [7]).latest (2 : ℤ) ≠ tailN (min 2 3) [7] := by
  decide

/-- C1 (amended): for every capacity `cap > 0`, every sequence of pushes and
every `n > 0`, provided at least `min n cap` samples have been pushed in
total, `latest n` returns exactly the last `min n cap` pushed samples in
chronological order — including when the read wraps across the circular-array
boundary, and a push whose input length is ≥ capacity keeps only its trailing
`capacity` samples. -/
theorem iq_ringbuffer_latest_returns_pushed_tail
    (cap : ℕ) (hcap : 0 < cap) (pushes : List (List ℤ)) (n : ℕ) (hn : 0 < n)
    (hlen : min n cap ≤ pushes.flatten.length) :
    (pushes.foldl IQRingBuffer.push (IQRingBuffer.init cap)).latest ((n : ℕ) : ℤ)
      = tailN (min n cap) pushes.flatten := by
  have hWFi : (IQRingBuffer.init cap).WF := by
    constructor
    · simp [IQRingBuffer.init]
    · simpa [IQRingBuffer.init] using hcap
  have hci : 0 < (IQRingBuffer.init cap).capacity := by
    simpa [IQRingBuffer.init] using hcap
  have hWF := foldl_push_WF pushes _ hWFi hci
  have hcapf : (pushes.foldl IQRingBuffer.push (IQRingBuffer.init cap)).capacity
      = cap := foldl_push_capacity cap pushes _ rfl
  rw [latest_eq_tailN_chron _ hWF n hn,
    chron_foldl_push pushes _ hWFi hci, hcapf]
  have hchron : (IQRingBuffer.init cap).chron = List.replicate cap 0 := by
    simp [IQRingBuffer.chron, IQRingBuffer.init]
  have hcapi : (IQRingBuffer.init cap).capacity = cap := rfl
  rw [hcapi, hchron, tailN_tailN, Nat.min_eq_left (by omega),
    tailN_append _ _ _ hlen]

/-- C1 witness: the amended theorem applied to capacity 3, the push sequence
`[[1, 2], [3, 4, 5, 6]]` (whose second chunk wraps the buffer) and `n = 2`. -/
theorem iq_ringbuffer_latest_returns_pushed_tail_witness :
    (([[1, 2], [3, 4, 5, 6]] : List (List ℤ)).foldl IQRingBuffer.push
        (IQRingBuffer.init 3)).latest ((2 : ℕ) : ℤ) = [5, 6] := by
  have h := iq_ringbuffer_latest_returns_pushed_tail 3 (by decide)
    [[1, 2], [3, 4, 5, 6]] 2 (by decide) (by decide)
  rw [h]
  decide

/-- C9 counterexample: `latest 0` on a capacity-3 buffer holding the pushed
samples `[5, 6]` returns the entire buffer contents `[0, 5, 6]`, not an empty
result. -/
theorem iq_ringbuffer_latest_nonpos_counterexample :
    ((IQRingBuffer.init 3).push [5, 6]).latest 0 = [0, 5, 6] ∧
      ((IQRingBuffer.init 3).push [5, 6]).latest 0 ≠ [] := by
  decide

/-- C9 (amended): for every well-formed buffer state and every `n` with
`-capacity < n ≤ 0`, `latest n` returns `capacity + n` samples (the whole
buffer for `n = 0`), not an empty result. -/
theorem iq_ringbuffer_latest_nonpos (s : IQRingBuffer) (h : s.WF) (n : ℤ)
    (hlo : -(s.capacity : ℤ) < n) (hhi : n ≤ 0) :
    (s.latest n).length = ((s.capacity : ℤ) + n).toNat := by
  obtain ⟨hb, hw⟩ := h
  unfold IQRingBuffer.latest
  dsimp only
  rw [min_eq_left (by omega)]
  rcases lt_or_le ((s.wpos : ℤ) - n) (s.capacity : ℤ) with hcase | hcase
  · have hstart : ((s.wpos : ℤ) - n) % (s.capacity : ℤ) = (s.wpos : ℤ) - n :=
      Int.emod_eq_of_lt (by omega) hcase
    rw [hstart, if_neg (by omega), List.length_append, List.length_drop,
      List.length_take]
    omega
  · have hstart : ((s.wpos : ℤ) - n) % (s.capacity : ℤ)
        = (s.wpos : ℤ) - n - (s.capacity : ℤ) := by
      conv_lhs =>
        rw [show (s.wpos : ℤ) - n
            = ((s.wpos : ℤ) - n - (s.capacity : ℤ)) + (s.capacity : ℤ) * 1 by ring]
      rw [Int.add_mul_emod_self_left, Int.emod_eq_of_lt (by omega) (by omega)]
    rw [hstart, if_pos (by omega), List.length_drop, List.length_take]
    omega

/-- C9 witness: the amended theorem applied to a capacity-3 buffer holding
`[5, 6]` and `n = -1`: two samples come back. -/
theorem iq_ringbuffer_latest_nonpos_witness :
    (((IQRingBuffer.init 3).push [5, 6]).latest (-1)).length = 2 := by
  have h := iq_ringbuffer_latest_nonpos ((IQRingBuffer.init 3).push [5, 6])
    ⟨by decide, by decide⟩ (-1) (by decide) (by decide)
  rw [h]
  decide

theorem convValidCore_length (a v : List ℚ) :
    (convValidCore a v).length = a.length + 1 - v.length := by
  simp [convValidCore]

theorem convValidCore_getD (a v : List ℚ) (j : ℕ)
    (hj : j < a.length + 1 - v.length) :
    (convValidCore a v).getD j 0
      = ∑ k ∈ Finset.range v.length, v.getD k 0 * a.getD (j + v.length - 1 - k) 0 := by
  rw [List.getD_eq_getElem _ _ (by simpa [convValidCore_length] using hj)]
  simp [convValidCore]

theorem list_eq_of_getD {α : Type} (d : α) {l₁ l₂ : List α}
    (hlen : l₁.length = l₂.length)
    (h : ∀ i, i < l₁.length → l₁.getD i d = l₂.getD i d) : l₁ = l₂ := by
  apply List.ext_getElem hlen
  intro i h1 h2
  have h3 := h i h1
  rwa [List.getD_eq_getElem _ _ h1, List.getD_eq_getElem _ _ h2] at h3

theorem getD_drop_q (l : List ℚ) (d i : ℕ) (h : d + i < l.length) :
    (l.drop d).getD i 0 = l.getD (d + i) 0 := by
  rw [List.getD_eq_getElem _ _ (by simp; omega), List.getD_eq_getElem _ _ h]
  simp

theorem getD_take_q (l : List ℚ) (t i : ℕ) (h1 : i < t) (h2 : i < l.length) :
    (l.take t).getD i 0 = l.getD i 0 := by
  rw [List.getD_eq_getElem _ _ (by simp; omega), List.getD_eq_getElem _ _ h2]
  simp

theorem convValidCore_getD_drop (a v : List ℚ) (d j : ℕ)
    (hj : j < (a.drop d).length + 1 - v.length) (hv : 1 ≤ v.length) :
    (convValidCore (a.drop d) v).getD j 0 = (convValidCore a v).getD (d + j) 0 := by
  rw [convValidCore_getD _ _ _ hj,
    convValidCore_getD _ _ _ (by simp at hj ⊢; omega)]
  apply Finset.sum_congr rfl
  intro k hk
  rw [Finset.mem_range] at hk
  rw [getD_drop_q _ _ _ (by simp at hj ⊢; omega)]
  congr 2
  omega

theorem convValidCore_getD_take (a v : List ℚ) (t j : ℕ)
    (hj : j < (a.take t).length + 1 - v.length) (ht : t ≤ a.length) :
    (convValidCore (a.take t) v).getD j 0 = (convValidCore a v).getD j 0 := by
  rw [convValidCore_getD _ _ _ hj,
    convValidCore_getD _ _ _ (by simp at hj ⊢; omega)]
  apply Finset.sum_congr rfl
  intro k hk
  rw [Finset.mem_range] at hk
  rw [getD_take_q _ _ _ (by simp at hj ⊢; omega) (by simp at hj ⊢; omega)]

theorem fir_stream_fst (x h zi : List ℚ) :
    (fir_stream x h zi).1 = convValid (zi ++ x) h := rfl

theorem fir_stream_snd (x h zi : List ℚ) :
    (fir_stream x h zi).2 = pyTakeLast (h.length - 1) (zi ++ x) := rfl

theorem pyTakeLast_length_of_le {α : Type} (k : ℕ) (l : List α) (hk : k ≠ 0)
    (h : k ≤ l.length) : (pyTakeLast k l).length = k := by
  unfold pyTakeLast
  rw [if_neg hk]
  simp
  omega

theorem tailN_drop {α : Type} (k d : ℕ) (l : List α) (h : d + k ≤ l.length) :
    tailN k (l.drop d) = tailN k l := by
  unfold tailN
  rw [List.drop_drop, List.length_drop]
  congr 1
  omega

/-- C3 counterexample: the claim fails as stated for the split whose first
sub-block is empty.  With `h = [1, 1]` and carried state `[0]`, the call on
the empty block returns 2 output samples (numpy convolves the longer input
with the shorter when the state-prepended block is shorter than `h`), so
streaming `[] ++ [1]` does not reproduce the one-shot output of `[1]`. -/
theorem fir_stream_split_counterexample :
    (fir_stream [] [1, 1] [0]).1
        ++ (fir_stream [1] [1, 1] (fir_stream [] [1, 1] [0]).2).1
      ≠ (fir_stream ([] ++ [1]) [1, 1] [0]).1 ∧
    (fir_stream ([] : List ℚ) [1, 1] [0]).1.length = 2 := by
  constructor
  · norm_num [fir_stream, convValid, convValidCore, pyTakeLast,
      Finset.sum_range_succ, List.range_succ]
  · norm_num [fir_stream, convValid, convValidCore, pyTakeLast]

/-- C3 (amended): for every coefficient vector `h` with at least 2 taps,
every carried state of the invariant length `len h - 1`, and every split of
the input into two NONEMPTY consecutive sub-blocks, streaming the two
sub-blocks with carried state equals one-shot streaming of the whole signal
(exactly, over `ℚ`); each call on a nonempty input of length L returns
exactly L output samples and a new state of length `len h - 1`. -/
theorem fir_stream_split (h zi x1 x2 : List ℚ)
    (hT : 2 ≤ h.length) (hzi : zi.length = h.length - 1)
    (hx1 : x1 ≠ []) (hx2 : x2 ≠ []) :
    (fir_stream x1 h zi).1.length = x1.length ∧
    (fir_stream x2 h (fir_stream x1 h zi).2).1.length = x2.length ∧
    (fir_stream (x1 ++ x2) h zi).1.length = x1.length + x2.length ∧
    (fir_stream x1 h zi).2.length = h.length - 1 ∧
    (fir_stream x2 h (fir_stream x1 h zi).2).2.length = h.length - 1 ∧
    (fir_stream x1 h zi).1 ++ (fir_stream x2 h (fir_stream x1 h zi).2).1
      = (fir_stream (x1 ++ x2) h zi).1 ∧
    (fir_stream x2 h (fir_stream x1 h zi).2).2
      = (fir_stream (x1 ++ x2) h zi).2 := by
  have hL1 : 1 ≤ x1.length := List.length_pos.mpr hx1
  have hL2 : 1 ≤ x2.length := List.length_pos.mpr hx2
  have hm0 : h.length - 1 ≠ 0 := by omega
  have hstate1 : (fir_stream x1 h zi).2 = (zi ++ x1).drop x1.length := by
    rw [fir_stream_snd x1 h zi, pyTakeLast_eq_tailN _ _ hm0]
    unfold tailN
    congr 1
    rw [List.length_append, hzi]
    omega
  have hlenz1 : (fir_stream x1 h zi).2.length = h.length - 1 := by
    rw [hstate1, List.length_drop, List.length_append, hzi]
    omega
  have hz1x2 : (fir_stream x1 h zi).2 ++ x2
      = (zi ++ (x1 ++ x2)).drop x1.length := by
    rw [hstate1, ← List.drop_append_of_le_length (by simp),
      List.append_assoc]
  have ha1 : zi ++ x1 = (zi ++ (x1 ++ x2)).take (zi.length + x1.length) := by
    rw [List.take_append_eq_append_take, List.take_append_eq_append_take]
    simp
  have hlenA : (zi ++ (x1 ++ x2)).length
      = (h.length - 1) + (x1.length + x2.length) := by
    simp [hzi]
  have hcv1 : (fir_stream x1 h zi).1 = convValidCore (zi ++ x1) h := by
    rw [fir_stream_fst x1 h zi]
    unfold convValid
    rw [if_pos (by simp [hzi]; omega)]
  have hcv2 : (fir_stream x2 h (fir_stream x1 h zi).2).1
      = convValidCore ((fir_stream x1 h zi).2 ++ x2) h := by
    rw [fir_stream_fst x2 h _]
    unfold convValid
    rw [if_pos (by rw [List.length_append, hlenz1]; omega)]
  have hcv : (fir_stream (x1 ++ x2) h zi).1
      = convValidCore (zi ++ (x1 ++ x2)) h := by
    rw [fir_stream_fst (x1 ++ x2) h zi]
    unfold convValid
    rw [if_pos (by rw [hlenA]; omega)]
  have hlen1 : (fir_stream x1 h zi).1.length = x1.length := by
    rw [hcv1, convValidCore_length]
    simp [hzi]
    omega
  have hlen2 : (fir_stream x2 h (fir_stream x1 h zi).2).1.length = x2.length := by
    rw [hcv2, convValidCore_length, List.length_append, hlenz1]
    omega
  have hlen : (fir_stream (x1 ++ x2) h zi).1.length = x1.length + x2.length := by
    rw [hcv, convValidCore_length, hlenA]
    omega
  refine ⟨hlen1, hlen2, hlen, hlenz1, ?_, ?_, ?_⟩
  · rw [fir_stream_snd x2 h _,
      pyTakeLast_length_of_le _ _ hm0 (by rw [List.length_append, hlenz1]; omega)]
  · apply list_eq_of_getD 0 (by rw [List.length_append, hlen1, hlen2, hlen])
    intro i hi
    rw [List.length_append, hlen1, hlen2] at hi
    rcases lt_or_le i x1.length with hcase | hcase
    · rw [List.getD_append _ _ _ _ (by rw [hlen1]; exact hcase)]
      rw [hcv1, hcv, ha1]
      rw [convValidCore_getD_take _ _ _ _ (by rw [← ha1]; simp [hzi]; omega)
        (by simp)]
    · rw [List.getD_append_right _ _ _ _ (by rw [hlen1]; exact hcase)]
      rw [hcv2, hcv, hlen1, hz1x2]
      rw [convValidCore_getD_drop _ _ _ _
        (by rw [← hz1x2, List.length_append, hlenz1]; omega) (by omega)]
      congr 1
      omega
  · rw [fir_stream_snd x2 h _, fir_stream_snd (x1 ++ x2) h zi,
      pyTakeLast_eq_tailN _ _ hm0, pyTakeLast_eq_tailN _ _ hm0, hz1x2,
      tailN_drop _ _ _ (by rw [hlenA]; omega)]

/-- C3 witness: the amended theorem applied to `h = [1, 2]`, state `[0]` and
the split `[3] ++ [4]`. -/
theorem fir_stream_split_witness :
    (fir_stream [3] [1, 2] [0]).1
        ++ (fir_stream [4] [1, 2] (fir_stream [3] [1, 2] [0]).2).1
      = (fir_stream ([3] ++ [4]) [1, 2] [0]).1 :=
  (fir_stream_split [1, 2] [0] [3] [4] (by norm_num) (by norm_num)
    (by simp) (by simp)).2.2.2.2.2.1

/-- C7 counterexample: `fir_lowpass` applies no clamping.  With the sinc and
window parameters instantiated at the constant-1 functions, there is no
in-range cutoff `c ∈ (0, 0.49 * fs]` whose design coincides with the design
at the out-of-range request `cutoff_hz = 0` (with `fs = 1`, one tap): the
request 0 produces the degenerate vector `[0]` (its unnormalized sum is
zero; numpy produces NaN there), while every in-range cutoff produces `[1]`. -/
theorem fir_lowpass_no_clamp_counterexample :
    ¬ (∃ c : ℚ, 0 < c ∧ c ≤ (49 / 100) * 1 ∧
        fir_lowpass (fun _ => 1) (fun _ => 1) 1 0 1
          = fir_lowpass (fun _ => 1) (fun _ => 1) 1 c 1) := by
  rintro ⟨c, hc0, _, heq⟩
  have hL : fir_lowpass (fun _ : ℚ => 1) (fun _ : ℚ => 1) 1 0 1 = [0] := by
    norm_num [fir_lowpass, List.range_succ]
  have hR : fir_lowpass (fun _ : ℚ => 1) (fun _ : ℚ => 1) 1 c 1 = [1] := by
    simp [fir_lowpass, List.range_succ]
    rw [div_self (by positivity)]
  rw [hL, hR] at heq
  simp at heq

/-- C7 (amended): `fir_lowpass` computes the normalized cutoff directly as
`cutoff_hz / fs` with no clamping, so an out-of-range cutoff is passed
through; in particular, for EVERY sinc and window function, a requested
cutoff of 0 makes every unnormalized coefficient `2 * 0 * sinc(0) * w` equal
to zero, the normalizing sum zero, and the returned coefficient vector
degenerate (identically zero here; NaN in numpy, where `h /= 0` divides zero
by zero) instead of a valid filter. -/
theorem fir_lowpass_cutoff_zero_degenerate (sinc hamming : ℚ → ℚ)
    (num_taps : ℕ) (fs : ℚ) :
    fir_lowpass sinc hamming num_taps 0 fs = List.replicate num_taps 0 := by
  simp [fir_lowpass]
  simp [Function.comp_def]

theorem evens_length {α : Type} : ∀ l : List α,
    (evens l).length = (l.length + 1) / 2
  | [] => by simp [evens]
  | [a] => by simp [evens]
  | a :: b :: rest => by
    simp only [evens, List.length_cons, evens_length rest]
    omega

theorem odds_length {α : Type} (l : List α) :
    (odds l).length = l.length / 2 := by
  cases l with
  | nil => simp [odds, evens]
  | cons a rest =>
    simp only [odds, List.tail_cons, evens_length rest, List.length_cons]

theorem evens_getD {α : Type} (d : α) : ∀ (l : List α) (j : ℕ),
    j < (evens l).length → (evens l).getD j d = l.getD (2 * j) d
  | [], j, h => by simp [evens] at h
  | [a], j, h => by
    simp [evens] at h
    subst h
    simp [evens]
  | a :: b :: rest, j, h => by
    cases j with
    | zero => simp [evens]
    | succ j' =>
      have h' : j' < (evens rest).length := by
        simp [evens] at h
        omega
      simp only [evens, List.getD_cons_succ]
      rw [evens_getD d rest j' h']
      rw [show 2 * (j' + 1) = 2 * j' + 1 + 1 by omega]
      simp [List.getD_cons_succ]

theorem odds_getD {α : Type} (d : α) (l : List α) (j : ℕ)
    (h : j < (odds l).length) : (odds l).getD j d = l.getD (2 * j + 1) d := by
  cases l with
  | nil => simp [odds, evens] at h
  | cons a rest =>
    simp only [odds, List.tail_cons]
    rw [evens_getD d rest j (by simpa [odds] using h)]
    simp [List.getD_cons_succ]

theorem getD_map_range {α : Type} (d : α) (m j : ℕ) (f : ℕ → α) (h : j < m) :
    ((List.range m).map f).getD j d = f j := by
  rw [List.getD_eq_getElem _ _ (by simp; omega)]
  simp

theorem truncEven_length (l : List ℤ) :
    (truncEven l).length = 2 * (l.length / 2) := by
  unfold truncEven
  split
  · rw [List.length_dropLast]
    omega
  · omega

theorem truncEven_getD (l : List ℤ) (k : ℕ) (h : k < 2 * (l.length / 2)) :
    (truncEven l).getD k 0 = l.getD k 0 := by
  unfold truncEven
  split
  · rw [List.getD_eq_getElem _ _ (by rw [List.length_dropLast]; omega),
      List.getD_eq_getElem _ _ (by omega)]
    simp
  · rfl

theorem getD_map_int8 (raw : List ℕ) (k : ℕ) (h : k < raw.length) :
    (raw.map int8OfByte).getD k 0 = int8OfByte (raw.getD k 0) := by
  rw [List.getD_eq_getElem _ _ (by simp; omega), List.getD_eq_getElem _ _ h]
  simp

theorem bytes_to_iq_core_eq_spec (raw : List ℕ) :
    bytes_to_iq_core raw = spec_iq raw := by
  have hdl : (truncEven (raw.map int8OfByte)).length = 2 * (raw.length / 2) := by
    rw [truncEven_length]
    simp
  have hdg : ∀ k, k < 2 * (raw.length / 2) →
      (truncEven (raw.map int8OfByte)).getD k 0 = int8OfByte (raw.getD k 0) := by
    intro k hk
    rw [truncEven_getD _ _ (by simp; omega), getD_map_int8 _ _ (by omega)]
  have hE : evens (truncEven (raw.map int8OfByte))
      = (List.range (raw.length / 2)).map
          (fun j => int8OfByte (raw.getD (2 * j) 0)) := by
    apply list_eq_of_getD 0
    · rw [evens_length, hdl]
      simp
      omega
    · intro i hi
      rw [evens_length, hdl] at hi
      rw [evens_getD 0 _ i (by rw [evens_length, hdl]; omega),
        hdg _ (by omega), getD_map_range 0 _ i _ (by omega)]
  have hO : odds (truncEven (raw.map int8OfByte))
      = (List.range (raw.length / 2)).map
          (fun j => int8OfByte (raw.getD (2 * j + 1) 0)) := by
    apply list_eq_of_getD 0
    · rw [odds_length, hdl]
      simp
    · intro i hi
      rw [odds_length, hdl] at hi
      rw [odds_getD 0 _ i (by rw [odds_length, hdl]; omega),
        hdg _ (by omega), getD_map_range 0 _ i _ (by omega)]
  unfold bytes_to_iq_core spec_iq
  dsimp only
  rw [hE, hO, List.zip_map']
  simp only [List.map_map]
  apply List.map_congr_left
  intro j hj
  rw [List.mem_range] at hj
  rw [getD_map_range 0 _ j _ hj, getD_map_range 0 _ j _ hj]
  simp [Function.comp_def]

/-- C8 counterexample: a block of 8 bytes (4 complex samples) is smaller than
8 complex samples, yet the byte→IQ stage of `_rx_cb` does not discard it: it
produces 4 output samples, where the claimed reference with an 8-sample
minimum produces none. -/
theorem bytes_to_iq_min_size_counterexample :
    spec_bytes_to_iq 8 [1, 2, 3, 4, 5, 6, 7, 8] = [] ∧
    (rx_bytes_to_iq [1, 2, 3, 4, 5, 6, 7, 8]).length = 4 ∧
    rx_bytes_to_iq [1, 2, 3, 4, 5, 6, 7, 8]
      ≠ spec_bytes_to_iq 8 [1, 2, 3, 4, 5, 6, 7, 8] := by
  have h1 : spec_bytes_to_iq 8 [1, 2, 3, 4, 5, 6, 7, 8] = [] := by
    norm_num [spec_bytes_to_iq]
  have h2 : (rx_bytes_to_iq [1, 2, 3, 4, 5, 6, 7, 8]).length = 4 := by
    norm_num [rx_bytes_to_iq, bytes_to_iq_core, truncEven, evens, odds]
  refine ⟨h1, h2, fun hc => ?_⟩
  rw [h1] at hc
  rw [hc] at h2
  simp at h2

/-- C8 (amended): both byte→IQ stages interpret their input as interleaved
signed 8-bit I,Q pairs scaled by 1/128 with the block mean subtracted and an
odd trailing byte dropped, but the discard thresholds are 2 complex samples
(4 bytes, `WBFMStream._rx_cb`) and 1 complex sample (2 bytes,
`AMStream._bytes_to_iq`) — not 8; separately, the AM demodulation loop skips
blocks of fewer than 256 complex samples. -/
theorem bytes_to_iq_stage (raw : List ℕ) :
    rx_bytes_to_iq raw = spec_bytes_to_iq 2 raw ∧
    am_bytes_to_iq raw = spec_bytes_to_iq 1 raw ∧
    (am_loop_iq raw = [] ↔ (am_bytes_to_iq raw).length < 256) := by
  refine ⟨?_, ?_, ?_⟩
  · unfold rx_bytes_to_iq spec_bytes_to_iq
    by_cases h : raw.length < 4
    · rw [if_pos h, if_pos (by omega)]
    · rw [if_neg h, if_neg (by omega), bytes_to_iq_core_eq_spec]
  · unfold am_bytes_to_iq spec_bytes_to_iq
    by_cases h : raw.length < 2
    · rw [if_pos h, if_pos (by omega)]
    · rw [if_neg h, if_neg (by omega), bytes_to_iq_core_eq_spec]
  · unfold am_loop_iq
    by_cases h : (am_bytes_to_iq raw).length < 256
    · rw [if_pos h]
      simp [h]
    · rw [if_neg h]
      constructor
      · intro he
        rw [he] at h
        simp at h
      · intro hlt
        exact absurd hlt h

theorem applyParam_fst {α : Type} [DecidableEq α] (cur : α) (v : Option α)
    (rb : Bool) : (applyParam cur v rb).1 = v.getD cur := by
  cases v with
  | none => rfl
  | some x =>
    by_cases h : cur = x
    · simp [applyParam, h]
    · simp [applyParam, h]

theorem applyParam_snd {α : Type} [DecidableEq α] (cur : α) (v : Option α)
    (rb : Bool) : (applyParam cur v rb).2 = (rb || paramChanged cur v) := by
  cases v with
  | none => simp [applyParam, paramChanged]
  | some x =>
    by_cases h : cur = x
    · simp [applyParam, paramChanged, h]
    · simp [applyParam, paramChanged, h]

/-- C2 counterexample: a call that changes ONLY the drive triggers
`_rebuild_filters`, so the carried filter tails are reset — contradicting the
claim that gain/drive/tau-only changes leave the tail state untouched. -/
theorem nbfm_update_drive_resets_tails_counterexample :
    anyChanged nbfmExampleState nbfmDriveOnlyUpdate = true ∧
    nbfmDriveOnlyUpdate.chan_taps = none ∧
    nbfmDriveOnlyUpdate.chan_cutoff_hz = none ∧
    nbfmDriveOnlyUpdate.aud_taps = none ∧
    nbfmDriveOnlyUpdate.aud_cutoff_hz = none ∧
    nbfmDriveOnlyUpdate.tau = none ∧
    nbfmDriveOnlyUpdate.volume = none ∧
    (update_params nbfmExampleState nbfmDriveOnlyUpdate).chanTail = [0] ∧
    nbfmExampleState.chanTail = [5] ∧
    (update_params nbfmExampleState nbfmDriveOnlyUpdate).chanTail
      ≠ nbfmExampleState.chanTail := by
  refine ⟨?_, rfl, rfl, rfl, rfl, rfl, rfl, ?_, rfl, ?_⟩
  · norm_num [anyChanged, paramChanged, nbfmExampleState, nbfmDriveOnlyUpdate]
  · norm_num [update_params, applyParam, rebuild_filters, nbfmExampleState,
      nbfmDriveOnlyUpdate]
  · norm_num [update_params, applyParam, rebuild_filters, nbfmExampleState,
      nbfmDriveOnlyUpdate]

/-- C2 (amended): `update_params` rebuilds the filters — resetting the
carried tails to zeros sized by the (possibly new) tap counts — if and only
if ANY recognized parameter was supplied with a value different from the
current one, drive/tau/volume included; a call whose supplied values all
equal the current ones changes nothing at all. -/
theorem nbfm_update_params_rebuild_iff (s : NBFMState) (u : NBFMUpdate) :
    ((update_params s u).chanTail
      = if anyChanged s u then List.replicate (u.chan_taps.getD s.params.chan_taps - 1) 0
        else s.chanTail) ∧
    ((update_params s u).audTail
      = if anyChanged s u then List.replicate (u.aud_taps.getD s.params.aud_taps - 1) 0
        else s.audTail) ∧
    (anyChanged s u = false → update_params s u = s) := by
  have hflag : (applyParam s.params.volume u.volume
      (applyParam s.params.drive u.drive
        (applyParam s.params.tau u.tau
          (applyParam s.params.aud_cutoff_hz u.aud_cutoff_hz
            (applyParam s.params.aud_taps u.aud_taps
              (applyParam s.params.chan_cutoff_hz u.chan_cutoff_hz
                (applyParam s.params.chan_taps u.chan_taps false).2).2).2).2).2).2).2
      = anyChanged s u := by
    simp only [applyParam_snd, Bool.false_or, anyChanged]
  refine ⟨?_, ?_, ?_⟩
  · unfold update_params
    dsimp only
    rw [hflag]
    by_cases hb : anyChanged s u
    · rw [if_pos hb, if_pos hb]
      unfold rebuild_filters
      dsimp only
      rw [applyParam_fst]
    · rw [if_neg hb, if_neg hb]
  · unfold update_params
    dsimp only
    rw [hflag]
    by_cases hb : anyChanged s u
    · rw [if_pos hb, if_pos hb]
      unfold rebuild_filters
      dsimp only
      rw [applyParam_fst]
    · rw [if_neg hb, if_neg hb]
  · intro hfalse
    have hall := hfalse
    unfold anyChanged at hall
    simp only [Bool.or_eq_false_iff] at hall
    obtain ⟨⟨⟨⟨⟨⟨h1, h2⟩, h3⟩, h4⟩, h5⟩, h6⟩, h7⟩ := hall
    have fst_of : ∀ {α : Type} [DecidableEq α] (cur : α) (v : Option α)
        (rb : Bool), paramChanged cur v = false → (applyParam cur v rb).1 = cur := by
      intro α _ cur v rb hv
      rw [applyParam_fst]
      cases v with
      | none => rfl
      | some x =>
        simp [paramChanged] at hv
        simp [hv]
    unfold update_params
    dsimp only
    rw [hflag, if_neg (by rw [hfalse]; exact Bool.false_ne_true)]
    rw [fst_of _ _ _ h1, fst_of _ _ _ h2, fst_of _ _ _ h3, fst_of _ _ _ h4,
      fst_of _ _ _ h5, fst_of _ _ _ h6, fst_of _ _ _ h7]

/-- C2 witness: a no-op update (no parameters supplied) leaves the state —
tails included — completely unchanged. -/
theorem nbfm_update_params_rebuild_iff_witness :
    update_params nbfmExampleState {} = nbfmExampleState :=
  (nbfm_update_params_rebuild_iff nbfmExampleState {}).2.2 rfl

theorem createStream_eq_none_iff (mode : String) (freq_mhz : ℚ) (input_fs : ℕ) :
    createStream mode freq_mhz input_fs = none ↔ pyUpper mode ∉ supportedModes := by
  unfold createStream supportedModes
  dsimp only
  split_ifs with h1 h2 h3 h4 <;> simp_all <;> tauto

/-- C4: `AudioEngine.start` raises an error if and only if the driver is
absent (NoActiveRadio), the driver lacks `get_audio_queue`
(DriverCapabilityMissing, checked next), or the normalized mode string is
unrecognized (UnsupportedMode); for every present driver with
`get_audio_queue` and every supported mode it succeeds, and the pipeline it
installs is the running pipeline `_create_stream` builds for that mode. -/
theorem audio_engine_start_error_iff (e : AudioEngine) (driver : Option Driver)
    (freq_mhz : ℚ) (mode : String) :
    (e.start driver freq_mhz mode = .error .noActiveRadio ↔ driver = none) ∧
    (e.start driver freq_mhz mode = .error .driverCapabilityMissing ↔
      ∃ d, driver = some d ∧ d.hasGetAudioQueue = false) ∧
    (e.start driver freq_mhz mode = .error .unsupportedMode ↔
      ∃ d, driver = some d ∧ d.hasGetAudioQueue = true ∧
        pyUpper (pyStrip (pyUpper mode)) ∉ supportedModes) ∧
    ((∃ e', e.start driver freq_mhz mode = .ok e') ↔
      ∃ d, driver = some d ∧ d.hasGetAudioQueue = true ∧
        pyUpper (pyStrip (pyUpper mode)) ∈ supportedModes) ∧
    (∀ d e', driver = some d → e.start driver freq_mhz mode = .ok e' →
      e'.stream = (createStream (pyStrip (pyUpper mode)) freq_mhz
          (d.sampleRate.getD 2400000)).map (fun st => { st with running := true }) ∧
      e'.current_mode = some (pyStrip (pyUpper mode))) := by
  cases driver with
  | none => simp [AudioEngine.start]
  | some d =>
    by_cases hq : d.hasGetAudioQueue = false
    · simp [AudioEngine.start, hq]
    · rw [Bool.not_eq_false] at hq
      rcases hc : createStream (pyStrip (pyUpper mode)) freq_mhz
          (d.sampleRate.getD 2400000) with _ | st
      · have hmem := (createStream_eq_none_iff (pyStrip (pyUpper mode))
          freq_mhz (d.sampleRate.getD 2400000)).mp hc
        simp [AudioEngine.start, hq, hc, hmem]
      · have hmem : pyUpper (pyStrip (pyUpper mode)) ∈ supportedModes := by
          by_contra hnm
          rw [← createStream_eq_none_iff (pyStrip (pyUpper mode)) freq_mhz
            (d.sampleRate.getD 2400000)] at hnm
          rw [hc] at hnm
          exact Option.noConfusion hnm
        simp [AudioEngine.start, hq, hc, hmem]

/-- C4 witness: starting a fresh engine with a capable driver and mode
string `" nfm "` succeeds, and the installed pipeline is the running NFM
pipeline at the requested frequency. -/
theorem audio_engine_start_error_iff_witness :
    (∃ e', AudioEngine.start {} (some { hasGetAudioQueue := true }) 145 " nfm "
      = .ok e') ∧
    (∀ d e', (some { hasGetAudioQueue := true } : Option Driver) = some d →
      AudioEngine.start {} (some { hasGetAudioQueue := true }) 145 " nfm "
        = .ok e' →
      e'.stream = (createStream (pyStrip (pyUpper " nfm ")) 145
          (d.sampleRate.getD 2400000)).map (fun st => { st with running := true }) ∧
      e'.current_mode = some (pyStrip (pyUpper " nfm "))) :=
  ⟨((audio_engine_start_error_iff {} (some { hasGetAudioQueue := true })
      145 " nfm ").2.2.2.1).mpr
    ⟨{ hasGetAudioQueue := true }, rfl, rfl, by decide⟩,
   (audio_engine_start_error_iff {} (some { hasGetAudioQueue := true })
      145 " nfm ").2.2.2.2⟩

/-- C5 counterexample: a failed mode change (unsupported mode "XYZ") restores
the previous pipeline as the engine's current pipeline, but that pipeline was
already stopped by the swap and is NOT restarted: it is no longer running —
the audio is dead even though the reference was restored. -/
theorem audio_engine_set_mode_dead_audio_counterexample :
    (∀ st, engineRunningExample.stream = some st → st.running = true) ∧
    createStream (pyStrip (pyUpper "XYZ")) 145 2400000 = none ∧
    (engineRunningExample.set_mode "XYZ").stream
      = some { kind := .nbfm, freq_mhz := 145, input_fs := 2400000,
               running := false } ∧
    (∀ st, (engineRunningExample.set_mode "XYZ").stream = some st →
      st.running = false) := by
  refine ⟨?_, ?_, ?_, ?_⟩
  · intro st hst
    simp [engineRunningExample] at hst
    rw [← hst]
  · rfl
  · rfl
  · intro st hst
    rw [show (engineRunningExample.set_mode "XYZ").stream
        = some { kind := .nbfm, freq_mhz := 145, input_fs := 2400000,
                 running := false } from rfl] at hst
    simp at hst
    rw [← hst]

/-- C5 (amended): whenever `set_mode` is asked for a new, nonempty mode whose
pipeline construction fails while a pipeline is running and the byte queue
is available, the engine restores the PREVIOUS pipeline as its current
pipeline and leaves `current_mode` unchanged — but that pipeline was stopped
before the construction attempt and is not restarted, so it is no longer
running. -/
theorem audio_engine_set_mode_fallback_stopped (e : AudioEngine) (mode : String)
    (p : StreamS) (hp : e.stream = some p) (hq : e.iq_queue = some ())
    (hne : ¬(pyStrip (pyUpper mode) = ""
      ∨ some (pyStrip (pyUpper mode)) = e.current_mode))
    (hfail : createStream (pyStrip (pyUpper mode)) p.freq_mhz p.input_fs = none) :
    (e.set_mode mode).stream = some { p with running := false } ∧
    (e.set_mode mode).current_mode = e.current_mode := by
  unfold AudioEngine.set_mode
  dsimp only
  rw [if_neg hne, hp, hq]
  simp [hfail]

/-- C5 witness: the amended theorem applied to a running NFM engine and the
unsupported mode "XYZ". -/
theorem audio_engine_set_mode_fallback_stopped_witness :
    (engineRunningExample.set_mode "XYZ").stream
      = some { kind := .nbfm, freq_mhz := 145, input_fs := 2400000,
               running := false } ∧
    (engineRunningExample.set_mode "XYZ").current_mode
      = engineRunningExample.current_mode :=
  audio_engine_set_mode_fallback_stopped engineRunningExample "XYZ"
    { kind := .nbfm, freq_mhz := 145, input_fs := 2400000, running := true }
    rfl rfl (by decide) rfl

theorem pollStep_break_gate (t0 t : ℚ) (s : ScanState) (h1 : s.recDone = false)
    (h2 : s.recOpen = false) (h3 : s.armed = true) (h4 : t - t0 > 4 / 5) :
    pollStep t0 t s = (stopRecording s, false) := by
  unfold pollStep
  rw [h1, if_neg Bool.false_ne_true, if_pos ⟨h2, h3, h4⟩]

theorem pollStep_cont (t0 t : ℚ) (s : ScanState) (h1 : s.recDone = false)
    (hg : ¬(s.recOpen = false ∧ s.armed = true ∧ t - t0 > 4 / 5)) :
    pollStep t0 t s = (s, true) := by
  unfold pollStep
  rw [h1, if_neg Bool.false_ne_true, if_neg hg]

theorem runEvents_nil (t0 : ℚ) (s : ScanState) : runEvents t0 [] s = s := rfl

theorem runEvents_audio (t0 t : ℚ) (rest : List ScanEv) (s : ScanState) :
    runEvents t0 (ScanEv.audio t :: rest) s = runEvents t0 rest (onAudio t s) :=
  rfl

theorem runEvents_poll_break (t0 t : ℚ) (rest : List ScanEv) (s : ScanState)
    (h : (pollStep t0 t s).2 = false) :
    runEvents t0 (ScanEv.poll t :: rest) s = (pollStep t0 t s).1 := by
  show (if (pollStep t0 t s).2 = true then runEvents t0 rest (pollStep t0 t s).1
      else (pollStep t0 t s).1) = (pollStep t0 t s).1
  rw [h, if_neg Bool.false_ne_true]

theorem runEvents_poll_cont (t0 t : ℚ) (rest : List ScanEv) (s : ScanState)
    (h : (pollStep t0 t s).2 = true) :
    runEvents t0 (ScanEv.poll t :: rest) s
      = runEvents t0 rest (pollStep t0 t s).1 := by
  show (if (pollStep t0 t s).2 = true then runEvents t0 rest (pollStep t0 t s).1
      else (pollStep t0 t s).1) = runEvents t0 rest (pollStep t0 t s).1
  rw [h, if_pos rfl]

theorem runEvents_no_audio (t0 : ℚ) (evs : List ScanEv) (s : ScanState)
    (hna : ∀ t, ScanEv.audio t ∉ evs) (hrec : s.recOpen = false)
    (hdone : s.recDone = false) :
    (runEvents t0 evs s).filesCreated = s.filesCreated ∧
    (runEvents t0 evs s).recOpen = false ∧
    (s.armed = false → (runEvents t0 evs s).armed = false) ∧
    ((∃ t, ScanEv.poll t ∈ evs ∧ t - t0 > 4 / 5) →
      (runEvents t0 evs s).armed = false) := by
  induction evs generalizing s with
  | nil =>
    rw [runEvents_nil]
    refine ⟨rfl, hrec, fun h => h, ?_⟩
    rintro ⟨t, ht, _⟩
    exact absurd ht (List.not_mem_nil _)
  | cons ev rest ih =>
    cases ev with
    | audio t => exact absurd (List.mem_cons_self _ _) (hna t)
    | poll t =>
      have hna' : ∀ u, ScanEv.audio u ∉ rest := fun u hu =>
        hna u (List.mem_cons_of_mem _ hu)
      by_cases hgate : s.recOpen = false ∧ s.armed = true ∧ t - t0 > 4 / 5
      · rw [runEvents_poll_break t0 t rest s
          (by rw [pollStep_break_gate t0 t s hdone hgate.1 hgate.2.1 hgate.2.2]),
          pollStep_break_gate t0 t s hdone hgate.1 hgate.2.1 hgate.2.2]
        exact ⟨rfl, rfl, fun _ => rfl, fun _ => rfl⟩
      · rw [runEvents_poll_cont t0 t rest s
          (by rw [pollStep_cont t0 t s hdone hgate]),
          pollStep_cont t0 t s hdone hgate]
        obtain ⟨ihA, ihB, ihC, ihD⟩ := ih s hna' hrec hdone
        refine ⟨ihA, ihB, ihC, ?_⟩
        rintro ⟨u, hu, hgu⟩
        rcases List.mem_cons.mp hu with heq | hmem
        · cases heq
          have harm : s.armed = false := by
            by_contra hb
            rw [Bool.not_eq_false] at hb
            exact hgate ⟨hrec, hb, hgu⟩
          exact ihC harm
        · exact ihD ⟨u, hmem, hgu⟩

theorem scanSingleFreq_eq (d : ScanDriver) (squelch hold freq_mhz t0 : ℚ)
    (evs : List ScanEv) :
    scanSingleFreq d squelch hold freq_mhz t0 evs
      = if level_db d (freq_mhz * 1000000) < squelch then { statuses := ["SCAN"] }
        else runEvents t0 evs
          { armed := true, armedUntil := t0 + hold,
            statuses := ["SCAN", "HOLD"] } := rfl

/-- C6: for every visited frequency, an output file is created only if the
measured level reached the squelch threshold (arming) and a first audio
block then arrived via the tap; with no audio in the schedule no file is
ever created, and once a wait-loop poll falls beyond the ~0.8 s grace window
the arm is aborted (disarmed, no file, recorder closed) so scanning proceeds
to the next frequency. -/
theorem scanner_episode_file_conditions (d : ScanDriver)
    (squelch hold freq_mhz t0 : ℚ) (evs : List ScanEv) :
    (level_db d (freq_mhz * 1000000) < squelch →
      scanSingleFreq d squelch hold freq_mhz t0 evs = { statuses := ["SCAN"] }) ∧
    (0 < (scanSingleFreq d squelch hold freq_mhz t0 evs).filesCreated →
      squelch ≤ level_db d (freq_mhz * 1000000) ∧ ∃ t, ScanEv.audio t ∈ evs) ∧
    ((∀ t, ScanEv.audio t ∉ evs) →
      (scanSingleFreq d squelch hold freq_mhz t0 evs).filesCreated = 0 ∧
      (scanSingleFreq d squelch hold freq_mhz t0 evs).recOpen = false ∧
      ((∃ t, ScanEv.poll t ∈ evs ∧ t - t0 > 4 / 5) →
        (scanSingleFreq d squelch hold freq_mhz t0 evs).armed = false)) := by
  rw [scanSingleFreq_eq]
  by_cases hlev : level_db d (freq_mhz * 1000000) < squelch
  · rw [if_pos hlev]
    exact ⟨fun _ => rfl, by simp, fun _ => ⟨rfl, rfl, fun _ => rfl⟩⟩
  · rw [if_neg hlev]
    refine ⟨fun h => absurd h hlev, ?_, ?_⟩
    · intro hfile
      refine ⟨le_of_not_lt hlev, ?_⟩
      by_contra hno
      push_neg at hno
      obtain ⟨hA, _, _, _⟩ := runEvents_no_audio t0 evs
        { armed := true, armedUntil := t0 + hold, statuses := ["SCAN", "HOLD"] }
        (fun t ht => hno t ht) rfl rfl
      rw [hA] at hfile
      exact absurd hfile (by simp)
    · intro hna
      obtain ⟨hA, hB, _, hD⟩ := runEvents_no_audio t0 evs
        { armed := true, armedUntil := t0 + hold, statuses := ["SCAN", "HOLD"] }
        hna rfl rfl
      exact ⟨hA, hB, hD⟩

/-- C6 witness: with the S-meter at −50 dB against a −60 dB squelch the
episode arms, and on a no-audio schedule with one poll past the grace window
it aborts: no file created, recorder closed, disarmed. -/
theorem scanner_episode_file_conditions_witness :
    (scanSingleFreq { smeter := some (-50) } (-60) 2 145 0
        [ScanEv.poll 1]).filesCreated = 0 ∧
    (scanSingleFreq { smeter := some (-50) } (-60) 2 145 0
        [ScanEv.poll 1]).recOpen = false ∧
    (scanSingleFreq { smeter := some (-50) } (-60) 2 145 0
        [ScanEv.poll 1]).armed = false := by
  have h := (scanner_episode_file_conditions { smeter := some (-50) }
    (-60) 2 145 0 [ScanEv.poll 1]).2.2 (by intro t ht; simp at ht)
  exact ⟨h.1, h.2.1, h.2.2 ⟨1, by simp, by norm_num⟩⟩

/-- C10: a driver exposing neither `get_smeter` nor `get_spectrum` yields the
sentinel level −999.0 at every frequency, so for any squelch above −999 dB
the scanner never arms, never creates a file, and each visited frequency
emits exactly one SCAN status event. -/
theorem scanner_no_level_source (d : ScanDriver) (hs : d.smeter = none)
    (hsp : d.spectrum = none) (tuned_hz squelch hold freq_mhz t0 : ℚ)
    (hsq : -999 < squelch) (evs : List ScanEv) :
    level_db d tuned_hz = -999 ∧
    scanSingleFreq d squelch hold freq_mhz t0 evs = { statuses := ["SCAN"] } := by
  have hl : ∀ x, level_db d x = -999 := by
    intro x
    unfold level_db
    rw [hs, hsp]
  refine ⟨hl tuned_hz, ?_⟩
  rw [scanSingleFreq_eq, hl, if_pos hsq]

/-- C10 witness: a capability-free driver at squelch −60 dB: the level is the
sentinel and the episode only emits SCAN, even though audio events occur. -/
theorem scanner_no_level_source_witness :
    level_db {} 145000000 = -999 ∧
    scanSingleFreq {} (-60) 2 145 0 [ScanEv.audio 1] = { statuses := ["SCAN"] } :=
  scanner_no_level_source {} rfl rfl 145000000 (-60) 2 145 0 (by norm_num)
    [ScanEv.audio 1]
